import Mathlib

/-!
Verification development for the web-scraper repository core
(src/markdown.py and src/scraper.py): the content cache, the fetch
coordinator, the extraction orchestrator and its response-recovery
routine.  Python strings are modelled as lists of characters, the
Supabase table `scraped_data` as a list of rows, `json.loads` as a
fuel-based recursive-descent JSON parser, and the three `re.sub`
passes of `clean_json_response` as character scanners that track
line starts exactly as Python's MULTILINE anchors do.
-/

set_option maxRecDepth 4000

/-- Python strings, modelled as lists of characters. -/
abbrev PyStr := List Char

def btick : Char := Char.ofNat 96

def dquote : Char := Char.ofNat 34

def bslash : Char := Char.ofNat 92

def lbrace : Char := Char.ofNat 123

def rbrace : Char := Char.ofNat 125

/-- The ASCII part of Python's regex class \s and of str.strip()'s
default strip set: space, tab, newline, carriage return, vertical
tab, form feed.  (The Unicode extras never occur in the claims.) -/
def isPySpace (c : Char) : Bool :=
  c == ' ' || c == '\t' || c == '\n' || c == '\r' ||
  c == Char.ofNat 11 || c == Char.ofNat 12

/-- Whitespace accepted between tokens by Python's json.loads. -/
def isJsonWs (c : Char) : Bool :=
  c == ' ' || c == '\t' || c == '\n' || c == '\r'

def isDigitC (c : Char) : Bool :=
  '0' ≤ c && c ≤ '9'

/-- JSON values as produced by json.loads.  Numbers keep their source
lexeme (no claim depends on numeric value); objects keep their members
in first-insertion order with last-wins values, like a Python dict. -/
inductive Json where
  | null : Json
  | bool (b : Bool) : Json
  | num (lex : PyStr) : Json
  | str (s : PyStr) : Json
  | arr (elems : List Json) : Json
  | obj (members : List (PyStr × Json)) : Json

def hexVal (c : Char) : Option Nat :=
  if '0' ≤ c && c ≤ '9' then some (c.toNat - 48)
  else if 'a' ≤ c && c ≤ 'f' then some (c.toNat - 87)
  else if 'A' ≤ c && c ≤ 'F' then some (c.toNat - 55)
  else none

/-- Body of a JSON string literal (after the opening quote): decodes
escapes, rejects unescaped control characters, returns the decoded
characters and the input after the closing quote.  A \uXXXX escape is
decoded as a single code point (surrogate pairing is not modelled; no
claim exercises it). -/
def jstrGo : Nat → List Char → List Char → Option (PyStr × List Char)
  | 0, _, _ => none
  | _+1, _, [] => none
  | f+1, acc, c :: rest =>
    if c == dquote then some (acc.reverse, rest)
    else if c == bslash then
      match rest with
      | [] => none
      | e :: rest' =>
        if e == dquote then jstrGo f (dquote :: acc) rest'
        else if e == bslash then jstrGo f (bslash :: acc) rest'
        else if e == '/' then jstrGo f ('/' :: acc) rest'
        else if e == 'b' then jstrGo f (Char.ofNat 8 :: acc) rest'
        else if e == 'f' then jstrGo f (Char.ofNat 12 :: acc) rest'
        else if e == 'n' then jstrGo f ('\n' :: acc) rest'
        else if e == 'r' then jstrGo f ('\r' :: acc) rest'
        else if e == 't' then jstrGo f ('\t' :: acc) rest'
        else if e == 'u' then
          match rest' with
          | h1 :: h2 :: h3 :: h4 :: rest'' =>
            match hexVal h1, hexVal h2, hexVal h3, hexVal h4 with
            | some a, some b, some c2, some d =>
              jstrGo f (Char.ofNat (((a * 16 + b) * 16 + c2) * 16 + d) :: acc) rest''
            | _, _, _, _ => none
          | _ => none
        else none
    else if c.toNat < 32 then none
    else jstrGo f (c :: acc) rest

/-- Exponent part of a JSON number lexeme. -/
def numExp (lex : PyStr) (cs : List Char) : Option (PyStr × List Char) :=
  match cs with
  | e :: rest =>
    if e == 'e' || e == 'E' then
      match rest with
      | s :: rest' =>
        if s == '+' || s == '-' then
          match rest' with
          | d :: rest'' =>
            if isDigitC d then
              some (lex ++ [e, s, d] ++ rest''.takeWhile isDigitC, rest''.dropWhile isDigitC)
            else none
          | [] => none
        else if isDigitC s then
          some (lex ++ [e, s] ++ rest'.takeWhile isDigitC, rest'.dropWhile isDigitC)
        else none
      | [] => none
    else some (lex, cs)
  | [] => some (lex, cs)

/-- Fraction-then-exponent part of a JSON number lexeme. -/
def numFracExp (lex : PyStr) (cs : List Char) : Option (PyStr × List Char) :=
  match cs with
  | d :: rest =>
    if d == '.' then
      match rest with
      | d2 :: rest' =>
        if isDigitC d2 then
          numExp (lex ++ [d, d2] ++ rest'.takeWhile isDigitC) (rest'.dropWhile isDigitC)
        else none
      | [] => none
    else numExp lex cs
  | [] => numExp lex cs

/-- JSON number lexeme: -? (0 | [1-9][0-9]*) frac? exp?. -/
def jnum (cs : List Char) : Option (PyStr × List Char) :=
  let p := match cs with
    | c :: rest => if c == '-' then (([c] : PyStr), rest) else (([] : PyStr), cs)
    | [] => (([] : PyStr), cs)
  match p.2 with
  | c :: rest =>
    if c == '0' then numFracExp (p.1 ++ [c]) rest
    else if isDigitC c then
      numFracExp (p.1 ++ [c] ++ rest.takeWhile isDigitC) (rest.dropWhile isDigitC)
    else none
  | [] => none

def expectLit (lit : List Char) (cs : List Char) : Option (List Char) :=
  if lit.isPrefixOf cs then some (cs.drop lit.length) else none

/-- Python-dict insertion for object members: a repeated key keeps its
first position but takes the last value. -/
def insertKV (ms : List (PyStr × Json)) (k : PyStr) (v : Json) : List (PyStr × Json) :=
  match ms with
  | [] => [(k, v)]
  | (k', v') :: rest => if k' == k then (k, v) :: rest else (k', v') :: insertKV rest k v

mutual

/-- Recursive-descent JSON value parser (model of the grammar accepted
by Python's json.loads, including its NaN/Infinity extensions).  Fuel
makes the recursion structural; json_loads supplies ample fuel. -/
def jparse : Nat → List Char → Option (Json × List Char)
  | 0, _ => none
  | f+1, cs0 =>
    let cs := cs0.dropWhile isJsonWs
    match cs with
    | [] => none
    | c :: rest =>
      if c == 'n' then
        match expectLit (['u', 'l', 'l']) rest with
        | some r => some (Json.null, r)
        | none => none
      else if c == 't' then
        match expectLit (['r', 'u', 'e']) rest with
        | some r => some (Json.bool true, r)
        | none => none
      else if c == 'f' then
        match expectLit (['a', 'l', 's', 'e']) rest with
        | some r => some (Json.bool false, r)
        | none => none
      else if c == 'N' then
        match expectLit (['a', 'N']) rest with
        | some r => some (Json.num (['N', 'a', 'N']), r)
        | none => none
      else if c == 'I' then
        match expectLit (['n', 'f', 'i', 'n', 'i', 't', 'y']) rest with
        | some r => some (Json.num (['I', 'n', 'f', 'i', 'n', 'i', 't', 'y']), r)
        | none => none
      else if c == dquote then
        match jstrGo f [] rest with
        | some (s, r) => some (Json.str s, r)
        | none => none
      else if c == '[' then
        let rest' := rest.dropWhile isJsonWs
        match rest' with
        | [] => none
        | d :: rest'' =>
          if d == ']' then some (Json.arr [], rest'')
          else
            match jelems f rest' with
            | some (vs, r) => some (Json.arr vs, r)
            | none => none
      else if c == lbrace then
        let rest' := rest.dropWhile isJsonWs
        match rest' with
        | [] => none
        | d :: rest'' =>
          if d == rbrace then some (Json.obj [], rest'')
          else
            match jmembers f [] rest' with
            | some (ms, r) => some (Json.obj ms, r)
            | none => none
      else if c == '-' then
        match rest with
        | 'I' :: r2 =>
          match expectLit (['n', 'f', 'i', 'n', 'i', 't', 'y']) r2 with
          | some r => some (Json.num (['-', 'I', 'n', 'f', 'i', 'n', 'i', 't', 'y']), r)
          | none => none
        | _ =>
          match jnum cs with
          | some (lex, r) => some (Json.num lex, r)
          | none => none
      else if isDigitC c then
        match jnum cs with
        | some (lex, r) => some (Json.num lex, r)
        | none => none
      else none

/-- Array elements after the opening bracket (nonempty case). -/
def jelems : Nat → List Char → Option (List Json × List Char)
  | 0, _ => none
  | f+1, cs =>
    match jparse f cs with
    | none => none
    | some (v, r) =>
      let r' := r.dropWhile isJsonWs
      match r' with
      | [] => none
      | c :: r2 =>
        if c == ',' then
          match jelems f r2 with
          | some (vs, r3) => some (v :: vs, r3)
          | none => none
        else if c == ']' then some ([v], r2)
        else none

/-- Object members after the opening brace (nonempty case). -/
def jmembers : Nat → List (PyStr × Json) → List Char → Option (List (PyStr × Json) × List Char)
  | 0, _, _ => none
  | f+1, acc, cs =>
    let cs' := cs.dropWhile isJsonWs
    match cs' with
    | [] => none
    | c :: rest =>
      if c == dquote then
        match jstrGo f [] rest with
        | none => none
        | some (k, r) =>
          let r' := r.dropWhile isJsonWs
          match r' with
          | [] => none
          | d :: r2 =>
            if d == ':' then
              match jparse f r2 with
              | none => none
              | some (v, r3) =>
                let acc' := insertKV acc k v
                let r4 := r3.dropWhile isJsonWs
                match r4 with
                | [] => none
                | e :: r5 =>
                  if e == ',' then jmembers f acc' r5
                  else if e == rbrace then some (acc', r5)
                  else none
            else none
      else none

end

/-- Model of Python's json.loads: parse one value, then require only
whitespace to remain (otherwise json.loads raises "Extra data"). -/
def json_loads (s : PyStr) : Option Json :=
  match jparse (2 * s.length + 2) s with
  | some (v, rest) => if (rest.dropWhile isJsonWs).isEmpty then some v else none
  | none => none


def fenceJson : List Char := [btick, btick, btick, 'j', 's', 'o', 'n']

def fence3 : List Char := [btick, btick, btick]

def fence3nl : List Char := [btick, btick, btick, '\n']

/-- Line-start status of the position after scanning xs, given status b
before xs: a position is at a line start exactly when the preceding
character is a newline. -/
def afterLS (b : Bool) (xs : List Char) : Bool :=
  match xs.getLast? with
  | some c => c == '\n'
  | none => b

/-- Scanner for re.sub(r'^```json\s*', '', text, flags=re.MULTILINE):
at each line start, a literal ```json plus the following greedy
whitespace run (which may span newlines) is deleted; all other
characters are copied.  atLS tracks whether the current position is a
MULTILINE ^ position.  Fuel (at least the input length) makes the
recursion structural. -/
def sub1Go : Nat → Bool → List Char → List Char
  | 0, _, cs => cs
  | f+1, atLS, cs =>
    if atLS && fenceJson.isPrefixOf cs then
      let ds := cs.drop 7
      sub1Go f (afterLS false (ds.takeWhile isPySpace)) (ds.dropWhile isPySpace)
    else
      match cs with
      | [] => []
      | c :: rest => c :: sub1Go f (c == '\n') rest

def sub1 (cs : List Char) : List Char :=
  sub1Go cs.length true cs

/-- Index of the last occurrence of c, like Python's str.rfind. -/
def lastIdxOf (c : Char) (l : List Char) : Option Nat :=
  match l.reverse.findIdx? (fun d => d == c) with
  | some i => some (l.length - 1 - i)
  | none => none

/-- Scanner for re.sub(r'^```\s*$', '', text, flags=re.MULTILINE): at a
line start, ``` followed by whitespace is deleted when the greedy
whitespace run can stop right before a newline or at the end of the
input ($ in MULTILINE mode); the newline itself is kept.  Matching
backtracks to the last newline inside the run, as the regex engine
does. -/
def sub2Go : Nat → Bool → List Char → List Char
  | 0, _, cs => cs
  | f+1, atLS, cs =>
    if atLS && fence3.isPrefixOf cs then
      let ds := cs.drop 3
      let run := ds.takeWhile isPySpace
      if run.length == ds.length then []
      else
        match lastIdxOf '\n' run with
        | some k => sub2Go f (afterLS false (run.take k)) (ds.drop k)
        | none =>
          match cs with
          | [] => []
          | c :: rest => c :: sub2Go f false rest
    else
      match cs with
      | [] => []
      | c :: rest => c :: sub2Go f (c == '\n') rest

def sub2 (cs : List Char) : List Char :=
  sub2Go cs.length true cs

/-- Model of re.sub(r'```$', '', text) without MULTILINE: $ matches at
the end of the string or just before a terminating newline, so the one
possible match is a ``` suffix or a ``` right before a final newline. -/
def sub3 (cs : List Char) : List Char :=
  if fence3.isSuffixOf cs then cs.take (cs.length - 3)
  else if fence3nl.isSuffixOf cs then cs.take (cs.length - 4) ++ ['\n']
  else cs

/-- Python str.strip(): remove leading and trailing whitespace. -/
def pyStrip (cs : List Char) : List Char :=
  ((cs.dropWhile isPySpace).reverse.dropWhile isPySpace).reverse

/-- Model of clean_json_response (src/scraper.py): strip markdown code
fences with the three re.sub passes, strip whitespace, then if both a
first lbrace and a last rbrace exist with the rbrace strictly later,
slice between them inclusively. -/
def clean_json_response (s : PyStr) : PyStr :=
  let s1 := sub1 s
  let s2 := sub2 s1
  let s3 := sub3 s2
  let s4 := pyStrip s3
  match s4.findIdx? (fun c => c == lbrace), lastIdxOf rbrace s4 with
  | some i, some j => if i < j then (s4.take (j + 1)).drop i else s4
  | _, _ => s4

/-- The fallback object built in scrape_urls when JSON parsing of the
cleaned response fails: it wraps the original, uncleaned response
text. -/
def fallbackJson (s : PyStr) : Json :=
  Json.obj [((("extracted_data").data),
    Json.arr [Json.obj [((("content").data), Json.str s),
      ((("metadata").data), Json.obj [((("location").data), Json.str (("unknown").data)),
        ((("context").data), Json.str (("full text").data))])]])]

/-- Response recovery for a string LLM response, as inlined in
scrape_urls (src/scraper.py lines 128-137): clean, parse, and on
parse failure wrap the original text in the fallback object. -/
def parse_llm_response (s : PyStr) : Json :=
  match json_loads (clean_json_response s) with
  | some v => v
  | none => fallbackJson s


/-- One row of the Supabase table scraped_data.  rid models the
auto-generated serial primary-key column id. -/
structure Row where
  rid : Nat
  unique_name : PyStr
  url : PyStr
  raw_data : PyStr
  formatted_data : Option Json

/-- Model of read_raw_data (src/markdown.py): select raw_data,url where
unique_name matches, take the first returned row (rows are kept in
insertion order), and fall back to empty content and url when no row
matches. -/
def read_raw_data (db : List Row) (un : PyStr) : PyStr × PyStr :=
  match db.filter (fun r => r.unique_name == un) with
  | [] => ([], [])
  | r :: _ => (r.raw_data, r.url)

def nextId (db : List Row) : Nat :=
  (db.map (fun r => r.rid)).foldr Nat.max 0 + 1

/-- Model of save_raw_data (src/markdown.py): the upsert names
on_conflict="id" but the payload carries no id, so the generated
INSERT ... ON CONFLICT (id) DO UPDATE always inserts a fresh row with
a new serial id — the conflict target can never fire.  No existing row
is ever replaced. -/
def save_raw_data (db : List Row) (un url content : PyStr) : List Row :=
  db ++ [⟨nextId db, un, url, content, none⟩]

/-- State threaded through the Fetch Coordinator: the store plus a
count of Page Fetcher invocations (each fetch_fit_markdown call runs
one crawler fetch). -/
structure FetchState where
  db : List Row
  fetchCount : Nat

/-- Model of fetch_fit_markdown / get_fit_markdown_async: the Page
Fetcher (crawl4ai) is an external collaborator, abstracted as a
function returning the markdown on success and none on failure; a
failed crawl yields the empty string. -/
def fetch_fit_markdown (fetcher : PyStr → Option PyStr) (url : PyStr) : PyStr :=
  match fetcher url with
  | some md => md
  | none => []

/-- One loop iteration of fetch_and_store_markdowns: reuse cached
non-empty content, otherwise fetch and store (counting the fetch). -/
def fetch_step (genName : PyStr → PyStr) (fetcher : PyStr → Option PyStr)
    (st : FetchState) (url : PyStr) : FetchState × PyStr :=
  let un := genName url
  if ((read_raw_data st.db un).1).isEmpty then
    let md := fetch_fit_markdown fetcher url
    (⟨save_raw_data st.db un url md, st.fetchCount + 1⟩, un)
  else (st, un)

/-- Model of fetch_and_store_markdowns (src/markdown.py): the
identifier generator (generate_unique_name, from the external utils
module) is abstracted as genName. -/
def fetch_and_store_markdowns (genName : PyStr → PyStr) (fetcher : PyStr → Option PyStr) :
    FetchState → List PyStr → FetchState × List PyStr
  | st, [] => (st, [])
  | st, url :: rest =>
    let p := fetch_step genName fetcher st url
    let q := fetch_and_store_markdowns genName fetcher p.1 rest
    (q.1, p.2 :: q.2)

/-- A Python value reaching save_formatted_data from scrape_urls: the
LLM provider may return raw response text or an already-structured
value. -/
inductive PyVal where
  | str (s : PyStr)
  | json (j : Json)

/-- One return of call_llm_model: the response value plus the token
counts and the cost of the call.  Cost is modelled in ℚ; the totals
are accumulated in the same left-to-right order as the source, so no
floating-point rounding question arises in any claim. -/
structure LlmOut where
  resp : PyVal
  input_tokens : Nat
  output_tokens : Nat
  cost : Rat

/-- The data_json value computed inside save_formatted_data
(src/scraper.py): a string argument is parsed, falling back to a
raw_text wrapper on decode failure; other values pass through.  (The
hasattr(x, "dict") pydantic branch has no counterpart among the values
scrape_urls can pass and is not modelled.) -/
def save_formatted_value (v : PyVal) : Json :=
  match v with
  | .str s =>
    match json_loads s with
    | some j => j
    | none => Json.obj [((("raw_text").data), Json.str s)]
  | .json j => j

/-- Model of the supabase update in save_formatted_data: set
formatted_data on every row whose unique_name matches. -/
def update_formatted (db : List Row) (un : PyStr) (j : Json) : List Row :=
  db.map (fun r => if r.unique_name == un then { r with formatted_data := some j } else r)

def promptOpening : PyStr :=
  (("You are a web content extraction assistant. Your task is to:\n\n1. Analyze the provided webpage content\n2. ").data)

def promptClosing : PyStr :=
  (("\n3. Extract ALL instances of the requested information\n4. For each instance found, extract ALL the fields specified in the prompt\n5. Return the extracted information in a structured JSON format that can be easily converted to CSV\n6. If no relevant information is found, return an empty array\n\nFormat your response as a JSON object with this structure:\n\x7b\n    \"extracted_data\": [\n        \x7b\n            \"field1\": \"value1\",\n            \"field2\": \"value2\",\n            \"field3\": \"value3\",\n            ...\n        \x7d,\n        \x7b\n            \"field1\": \"value1\",\n            \"field2\": \"value2\",\n            \"field3\": \"value3\",\n            ...\n        \x7d,\n        ...\n    ]\n\x7d\n\nImportant:\n- Extract ALL instances that match the criteria\n- Include ALL fields mentioned in the prompt for each instance\n- Make sure each instance has the same fields/structure\n- Use consistent field names across all instances\n- If a field is not found, use \"N/A\" instead of leaving it empty").data)

/-- Model of generate_extraction_prompt (src/scraper.py): the fixed
protocol text around the caller-supplied prompt. -/
def generate_extraction_prompt (user_prompt : PyStr) : PyStr :=
  promptOpening ++ user_prompt ++ promptClosing

def defaultPrompt : PyStr :=
  (("Extract all relevant information from the webpage").data)

/-- The prompt scrape_urls selects: the first element if the list is
nonempty, else the default. -/
def promptOf (extraction_prompts : List PyStr) : PyStr :=
  match extraction_prompts with
  | [] => defaultPrompt
  | p :: _ => p

/-- Accumulator of the scrape_urls loop.  The three trailing fields
are the returned totals and results; llmCalls and saveCalls are ghost
traces of the call_llm_model returns and of the arguments passed to
save_formatted_data, used to state the usage-accounting claims. -/
structure ScrapeAcc where
  db : List Row
  total_input_tokens : Nat
  total_output_tokens : Nat
  total_cost : Rat
  extraction_results : List (PyStr × PyStr × PyVal)
  llmCalls : List (PyStr × LlmOut)
  saveCalls : List PyVal

/-- The Python value json.loads produces for a parsed JSON document:
a JSON string literal decodes to a Python str; every other JSON value
decodes to a non-string Python object (dict, list, number, bool or
None). -/
def pyValOfJson (j : Json) : PyVal :=
  match j with
  | Json.str t => PyVal.str t
  | j => PyVal.json j

/-- The extracted_data value scrape_urls derives from a provider
return (src/scraper.py lines 128-137): a string response is cleaned
and parsed — json.loads returns a Python str when the document is a
JSON string literal — and wrapped in the fallback object on parse
failure; a non-string value passes through. -/
def edOf (out : LlmOut) : PyVal :=
  match out.resp with
  | .str s => pyValOfJson (parse_llm_response s)
  | .json j => PyVal.json j

/-- One iteration of the scrape_urls loop (src/scraper.py lines
108-155).  provider abstracts call_llm_model (none = the provider
raised); storeFails abstracts a raising supabase execute() inside
save_formatted_data for that identifier.  Exceptions are caught at
the per-identifier boundary, so both failure cases leave the
accumulator unchanged past the point of the raise; note that the
totals are updated only after save_formatted_data has returned. -/
def scrape_step (provider : PyStr → PyStr → Option LlmOut) (storeFails : PyStr → Bool)
    (sysMsg : PyStr) (acc : ScrapeAcc) (uniq : PyStr) : ScrapeAcc :=
  let rd := read_raw_data acc.db uniq
  if rd.1.isEmpty then acc
  else
    match provider rd.1 sysMsg with
    | none => acc
    | some out =>
      let acc1 := { acc with llmCalls := acc.llmCalls ++ [(uniq, out)] }
      let ed : PyVal := edOf out
      let acc2 := { acc1 with saveCalls := acc1.saveCalls ++ [ed] }
      if storeFails uniq then acc2
      else
        { acc2 with
          db := update_formatted acc2.db uniq (save_formatted_value ed),
          total_input_tokens := acc2.total_input_tokens + out.input_tokens,
          total_output_tokens := acc2.total_output_tokens + out.output_tokens,
          total_cost := acc2.total_cost + out.cost,
          extraction_results := acc2.extraction_results ++ [(uniq, rd.2, ed)] }

def scrape_go (provider : PyStr → PyStr → Option LlmOut) (storeFails : PyStr → Bool)
    (sysMsg : PyStr) : ScrapeAcc → List PyStr → ScrapeAcc
  | acc, [] => acc
  | acc, u :: us =>
    scrape_go provider storeFails sysMsg (scrape_step provider storeFails sysMsg acc u) us

/-- Model of scrape_urls (src/scraper.py): build the system message
from the first prompt (or the default), then process the identifiers
sequentially starting from zero totals and empty results. -/
def scrape_urls (provider : PyStr → PyStr → Option LlmOut) (storeFails : PyStr → Bool)
    (db : List Row) (unique_names : List PyStr) (extraction_prompts : List PyStr) : ScrapeAcc :=
  scrape_go provider storeFails (generate_extraction_prompt (promptOf extraction_prompts))
    ⟨db, 0, 0, 0, [], [], []⟩ unique_names

/-- Content of the one call_llm_model invocation scrape_urls makes for
an identifier against store db: none when the identifier is skipped
for missing content or the provider raises. -/
def callOf (provider : PyStr → PyStr → Option LlmOut) (sysMsg : PyStr)
    (db : List Row) (u : PyStr) : Option LlmOut :=
  if ((read_raw_data db u).1).isEmpty then none
  else provider ((read_raw_data db u).1) sysMsg

/-- The provider return for identifiers that succeed end to end
(provider succeeded and the store write succeeded). -/
def succCall (provider : PyStr → PyStr → Option LlmOut) (sysMsg : PyStr)
    (storeFails : PyStr → Bool) (db : List Row) (u : PyStr) : Option LlmOut :=
  match callOf provider sysMsg db u with
  | some out => if storeFails u then none else some out
  | none => none

/-- C3: the claim says save_raw_data has upsert semantics keyed on the
identifier.  The code upserts with on_conflict="id" while the payload
has no id, so the conflict target never fires: saving twice under the
same identifier leaves two rows, and the first row's rawContent is
not replaced.  This theorem evaluates the model at that failing
input. -/
theorem save_raw_data_duplicates_identifier :
    (save_raw_data (save_raw_data [] (['u']) (['w']) (['a'])) (['u']) (['w']) (['b'])).map
        (fun r => r.unique_name) = [['u'], ['u']] ∧
    (save_raw_data (save_raw_data [] (['u']) (['w']) (['a'])) (['u']) (['w']) (['b'])).map
        (fun r => r.raw_data) = [['a'], ['b']] ∧
    (read_raw_data (save_raw_data (save_raw_data [] (['u']) (['w']) (['a'])) (['u']) (['w'])
        (['b'])) (['u'])).1 = ['a'] := by
  exact ⟨rfl, rfl, rfl⟩

/-- C8: fetch_and_store_markdowns returns exactly one identifier per
input URL, in input order, whatever the cache and fetch outcomes. -/
theorem fetch_step_snd (genName : PyStr → PyStr) (fetcher : PyStr → Option PyStr)
    (st : FetchState) (url : PyStr) :
    (fetch_step genName fetcher st url).2 = genName url := by
  simp only [fetch_step]
  split <;> rfl

theorem fetch_and_store_markdowns_names (genName : PyStr → PyStr)
    (fetcher : PyStr → Option PyStr) (st : FetchState) (urls : List PyStr) :
    (fetch_and_store_markdowns genName fetcher st urls).2 = urls.map genName := by
  induction urls generalizing st with
  | nil => rfl
  | cons u rest ih => simp [fetch_and_store_markdowns, ih, fetch_step_snd]

theorem fetch_step_cache_hit (genName : PyStr → PyStr) (fetcher : PyStr → Option PyStr)
    (st : FetchState) (url : PyStr)
    (hrec : ∃ r ∈ st.db, r.unique_name = genName url)
    (hne : ∀ r ∈ st.db, r.unique_name = genName url → r.raw_data ≠ []) :
    fetch_step genName fetcher st url = (st, genName url) := by
  obtain ⟨r, hr, hrn⟩ := hrec
  have hmem : r ∈ st.db.filter (fun x => x.unique_name == genName url) :=
    List.mem_filter.mpr ⟨hr, by simp [hrn]⟩
  rcases hfil : st.db.filter (fun x => x.unique_name == genName url) with - | ⟨r0, t⟩
  · rw [hfil] at hmem; cases hmem
  · have hr0 : r0 ∈ st.db.filter (fun x => x.unique_name == genName url) := by
      rw [hfil]; exact List.mem_cons_self r0 t
    rw [List.mem_filter] at hr0
    have hname : r0.unique_name = genName url := by simpa using hr0.2
    have hne0 := hne r0 hr0.1 hname
    have hread : read_raw_data st.db (genName url) = (r0.raw_data, r0.url) := by
      unfold read_raw_data; rw [hfil]
    simp only [fetch_step]
    rw [hread]
    simp [List.isEmpty_iff, hne0]

/-- C2: a URL whose identifier is already stored with non-empty
content causes zero Page Fetcher invocations and leaves the store
untouched when the Fetch Coordinator runs on it. -/
theorem fetch_coordinator_cache_hit (genName : PyStr → PyStr) (fetcher : PyStr → Option PyStr)
    (st : FetchState) (url : PyStr)
    (hrec : ∃ r ∈ st.db, r.unique_name = genName url)
    (hne : ∀ r ∈ st.db, r.unique_name = genName url → r.raw_data ≠ []) :
    fetch_and_store_markdowns genName fetcher st ([url]) = (st, [genName url]) := by
  simp [fetch_and_store_markdowns,
    fetch_step_cache_hit genName fetcher st url hrec hne]

theorem fetch_coordinator_cache_hit_witness :
    (∃ r ∈ ([⟨1, ['u'], ['h'], ['c'], none⟩] : List Row), r.unique_name = ['u']) ∧
    (∀ r ∈ ([⟨1, ['u'], ['h'], ['c'], none⟩] : List Row), r.unique_name = ['u'] → r.raw_data ≠ []) ∧
    fetch_and_store_markdowns (fun _ => ['u']) (fun _ => none)
      ⟨[⟨1, ['u'], ['h'], ['c'], none⟩], 0⟩ ([['h']]) =
      (⟨[⟨1, ['u'], ['h'], ['c'], none⟩], 0⟩, [['u']]) :=
  ⟨⟨⟨1, ['u'], ['h'], ['c'], none⟩, by simp, rfl⟩,
   by intro r hr _; simp at hr; subst hr; simp,
   fetch_coordinator_cache_hit (fun _ => ['u']) (fun _ => none)
     ⟨[⟨1, ['u'], ['h'], ['c'], none⟩], 0⟩ (['h'])
     ⟨⟨1, ['u'], ['h'], ['c'], none⟩, by simp, rfl⟩
     (by intro r hr _; simp at hr; subst hr; simp)⟩

theorem read_after_save_empty (db : List Row) (un url : PyStr)
    (hmiss : (read_raw_data db un).1 = []) :
    (read_raw_data (save_raw_data db un url []) un).1 = [] := by
  unfold read_raw_data save_raw_data
  rw [List.filter_append]
  rcases hfil : db.filter (fun r => r.unique_name == un) with - | ⟨r0, t⟩
  · rw [hfil]; simp
  · have : (read_raw_data db un).1 = r0.raw_data := by
      unfold read_raw_data; rw [hfil]
    rw [this] at hmiss
    rw [hfil]
    simp [hmiss]

/-- C7: when the Page Fetcher fails on a cache-missed URL, the Fetch
Coordinator stores the empty string for its identifier and finishes
the batch normally, and a subsequent run on the same URL attempts the
fetch again (the cache-hit check requires non-empty content). -/
theorem fetch_failure_retryable (genName : PyStr → PyStr) (fetcher : PyStr → Option PyStr)
    (st : FetchState) (url : PyStr)
    (hmiss : (read_raw_data st.db (genName url)).1 = [])
    (hfail : fetcher url = none) :
    (fetch_and_store_markdowns genName fetcher st ([url])).1.db =
        save_raw_data st.db (genName url) url [] ∧
    (fetch_and_store_markdowns genName fetcher st ([url])).1.fetchCount = st.fetchCount + 1 ∧
    (fetch_and_store_markdowns genName fetcher st ([url])).2 = [genName url] ∧
    (read_raw_data (fetch_and_store_markdowns genName fetcher st ([url])).1.db (genName url)).1
        = [] ∧
    (fetch_and_store_markdowns genName fetcher
        (fetch_and_store_markdowns genName fetcher st ([url])).1 ([url])).1.fetchCount =
      (fetch_and_store_markdowns genName fetcher st ([url])).1.fetchCount + 1 := by
  have hstep : fetch_step genName fetcher st url =
      (⟨save_raw_data st.db (genName url) url [], st.fetchCount + 1⟩, genName url) := by
    simp only [fetch_step]
    rw [hmiss]
    simp [fetch_fit_markdown, hfail]
  have hone : fetch_and_store_markdowns genName fetcher st ([url]) =
      (⟨save_raw_data st.db (genName url) url [], st.fetchCount + 1⟩, [genName url]) := by
    simp [fetch_and_store_markdowns, hstep]
  have hread' : (read_raw_data (save_raw_data st.db (genName url) url []) (genName url)).1 = [] :=
    read_after_save_empty st.db (genName url) url hmiss
  refine ⟨by rw [hone], by rw [hone], by rw [hone], by rw [hone]; exact hread', ?_⟩
  rw [hone]
  simp only [fetch_and_store_markdowns, fetch_step]
  rw [hread']
  simp

theorem read_update_formatted (db : List Row) (un : PyStr) (j : Json) (u : PyStr) :
    read_raw_data (update_formatted db un j) u = read_raw_data db u := by
  unfold read_raw_data update_formatted
  rw [List.filter_map]
  have hp : ((fun r : Row => r.unique_name == u) ∘
      (fun r => if r.unique_name == un then { r with formatted_data := some j } else r)) =
      fun r : Row => r.unique_name == u := by
    funext r
    simp only [Function.comp_apply]
    split <;> rfl
  rw [hp]
  rcases hfil : db.filter (fun r : Row => r.unique_name == u) with - | ⟨r0, t⟩
  · try rw [hfil]
    simp
  · try rw [hfil]
    simp only [List.map_cons]
    split <;> rfl

/-- Full characterization of the scrape_urls loop relative to the
initial store: reads are unaffected by the formatted_data updates the
loop itself performs, so every per-identifier outcome is a function of
the initial store. -/
theorem scrape_go_spec (provider : PyStr → PyStr → Option LlmOut) (storeFails : PyStr → Bool)
    (M : PyStr) (db0 : List Row) :
    ∀ (uniqs : List PyStr) (acc : ScrapeAcc),
      (∀ u, read_raw_data acc.db u = read_raw_data db0 u) →
      (scrape_go provider storeFails M acc uniqs).total_input_tokens =
          acc.total_input_tokens +
          ((uniqs.filterMap (succCall provider M storeFails db0)).map
            (fun o => o.input_tokens)).sum ∧
      (scrape_go provider storeFails M acc uniqs).total_output_tokens =
          acc.total_output_tokens +
          ((uniqs.filterMap (succCall provider M storeFails db0)).map
            (fun o => o.output_tokens)).sum ∧
      (scrape_go provider storeFails M acc uniqs).total_cost =
          acc.total_cost +
          ((uniqs.filterMap (succCall provider M storeFails db0)).map
            (fun o => o.cost)).sum ∧
      (scrape_go provider storeFails M acc uniqs).extraction_results =
          acc.extraction_results ++ uniqs.filterMap (fun u =>
            match callOf provider M db0 u with
            | some out =>
              if storeFails u then none else some (u, (read_raw_data db0 u).2, edOf out)
            | none => none) ∧
      (scrape_go provider storeFails M acc uniqs).llmCalls =
          acc.llmCalls ++ uniqs.filterMap (fun u =>
            (callOf provider M db0 u).map (fun out => (u, out))) ∧
      (scrape_go provider storeFails M acc uniqs).saveCalls =
          acc.saveCalls ++ uniqs.filterMap (fun u => (callOf provider M db0 u).map edOf) ∧
      (∀ u, read_raw_data (scrape_go provider storeFails M acc uniqs).db u =
          read_raw_data db0 u) := by
  intro uniqs
  induction uniqs with
  | nil =>
    intro acc hdb
    refine ⟨by simp [scrape_go], by simp [scrape_go], by simp [scrape_go],
      by simp [scrape_go], by simp [scrape_go], by simp [scrape_go], ?_⟩
    intro u
    exact hdb u
  | cons u us ih =>
    intro acc hdb
    have hread : read_raw_data acc.db u = read_raw_data db0 u := hdb u
    by_cases hc : ((read_raw_data db0 u).1).isEmpty = true
    · have hstep : scrape_step provider storeFails M acc u = acc := by
        simp only [scrape_step]
        rw [hread]
        simp [hc]
      have hcall : callOf provider M db0 u = none := by simp [callOf, hc]
      have h := ih acc hdb
      simp only [scrape_go, hstep]
      simpa [List.filterMap_cons, hcall, succCall] using h
    · have hc' : ((read_raw_data db0 u).1).isEmpty = false := by
        revert hc
        cases ((read_raw_data db0 u).1).isEmpty <;> simp
      cases hp : provider ((read_raw_data db0 u).1) M with
      | none =>
        have hstep : scrape_step provider storeFails M acc u = acc := by
          simp only [scrape_step]
          rw [hread]
          simp [hc', hp]
        have hcall : callOf provider M db0 u = none := by simp [callOf, hc', hp]
        have h := ih acc hdb
        simp only [scrape_go, hstep]
        simpa [List.filterMap_cons, hcall, succCall] using h
      | some out =>
        have hcall : callOf provider M db0 u = some out := by simp [callOf, hc', hp]
        by_cases hs : storeFails u = true
        · have hstep : scrape_step provider storeFails M acc u =
              { acc with llmCalls := acc.llmCalls ++ [(u, out)],
                         saveCalls := acc.saveCalls ++ [edOf out] } := by
            simp only [scrape_step]
            rw [hread]
            simp [hc', hp, hs]
          have hsucc : succCall provider M storeFails db0 u = none := by
            simp [succCall, hcall, hs]
          obtain ⟨h1, h2, h3, h4, h5, h6, h7⟩ :=
            ih { acc with llmCalls := acc.llmCalls ++ [(u, out)],
                          saveCalls := acc.saveCalls ++ [edOf out] } (by simpa using hdb)
          simp only [scrape_go, hstep]
          refine ⟨?_, ?_, ?_, ?_, ?_, ?_, ?_⟩
          · simpa [List.filterMap_cons, hsucc] using h1
          · simpa [List.filterMap_cons, hsucc] using h2
          · simpa [List.filterMap_cons, hsucc] using h3
          · simpa [List.filterMap_cons, hcall, hs] using h4
          · simpa [List.filterMap_cons, hcall] using h5
          · simpa [List.filterMap_cons, hcall] using h6
          · exact h7
        · have hs' : storeFails u = false := by
            revert hs
            cases storeFails u <;> simp
          have hstep : scrape_step provider storeFails M acc u =
              { acc with
                db := update_formatted acc.db u (save_formatted_value (edOf out)),
                total_input_tokens := acc.total_input_tokens + out.input_tokens,
                total_output_tokens := acc.total_output_tokens + out.output_tokens,
                total_cost := acc.total_cost + out.cost,
                extraction_results :=
                  acc.extraction_results ++ [(u, (read_raw_data db0 u).2, edOf out)],
                llmCalls := acc.llmCalls ++ [(u, out)],
                saveCalls := acc.saveCalls ++ [edOf out] } := by
            simp only [scrape_step]
            rw [hread]
            simp [hc', hp, hs']
          have hsucc : succCall provider M storeFails db0 u = some out := by
            simp [succCall, hcall, hs']
          obtain ⟨h1, h2, h3, h4, h5, h6, h7⟩ :=
            ih { acc with
                  db := update_formatted acc.db u (save_formatted_value (edOf out)),
                  total_input_tokens := acc.total_input_tokens + out.input_tokens,
                  total_output_tokens := acc.total_output_tokens + out.output_tokens,
                  total_cost := acc.total_cost + out.cost,
                  extraction_results :=
                    acc.extraction_results ++ [(u, (read_raw_data db0 u).2, edOf out)],
                  llmCalls := acc.llmCalls ++ [(u, out)],
                  saveCalls := acc.saveCalls ++ [edOf out] }
              (by
                intro v
                simp only []
                exact (read_update_formatted acc.db u (save_formatted_value (edOf out)) v).trans
                  (hdb v))
          simp only [scrape_go, hstep]
          refine ⟨?_, ?_, ?_, ?_, ?_, ?_, ?_⟩
          · rw [h1]
            simp [List.filterMap_cons, hsucc, Nat.add_assoc]
          · rw [h2]
            simp [List.filterMap_cons, hsucc, Nat.add_assoc]
          · rw [h3]
            simp [List.filterMap_cons, hsucc, add_assoc]
          · rw [h4]
            simp [List.filterMap_cons, hcall, hs']
          · rw [h5]
            simp [List.filterMap_cons, hcall]
          · rw [h6]
            simp [List.filterMap_cons, hcall]
          · exact h7

/-- C4: when some identifier in the batch raises (provider failure or
store failure), scrape_urls still returns entries exactly for the
identifiers that succeeded end to end, and the returned totals are the
sums of the per-call values of those successful identifiers only. -/
theorem scrape_partial_failure_isolation (provider : PyStr → PyStr → Option LlmOut)
    (storeFails : PyStr → Bool) (db : List Row) (uniqs prompts : List PyStr)
    (_hfail : ∃ u ∈ uniqs,
      callOf provider (generate_extraction_prompt (promptOf prompts)) db u = none ∨
      storeFails u = true) :
    (scrape_urls provider storeFails db uniqs prompts).extraction_results =
        uniqs.filterMap (fun u =>
          match callOf provider (generate_extraction_prompt (promptOf prompts)) db u with
          | some out =>
            if storeFails u then none else some (u, (read_raw_data db u).2, edOf out)
          | none => none) ∧
    (∀ e ∈ (scrape_urls provider storeFails db uniqs prompts).extraction_results,
        succCall provider (generate_extraction_prompt (promptOf prompts)) storeFails db e.1 ≠
          none) ∧
    (scrape_urls provider storeFails db uniqs prompts).total_input_tokens =
        ((uniqs.filterMap (succCall provider (generate_extraction_prompt (promptOf prompts))
          storeFails db)).map (fun o => o.input_tokens)).sum ∧
    (scrape_urls provider storeFails db uniqs prompts).total_output_tokens =
        ((uniqs.filterMap (succCall provider (generate_extraction_prompt (promptOf prompts))
          storeFails db)).map (fun o => o.output_tokens)).sum ∧
    (scrape_urls provider storeFails db uniqs prompts).total_cost =
        ((uniqs.filterMap (succCall provider (generate_extraction_prompt (promptOf prompts))
          storeFails db)).map (fun o => o.cost)).sum := by
  obtain ⟨h1, h2, h3, h4, -, -, -⟩ := scrape_go_spec provider storeFails
    (generate_extraction_prompt (promptOf prompts)) db uniqs ⟨db, 0, 0, 0, [], [], []⟩
    (fun _ => rfl)
  refine ⟨by simpa using h4, ?_, by simpa using h1, by simpa using h2, by simpa using h3⟩
  intro e he
  rw [show (scrape_urls provider storeFails db uniqs prompts).extraction_results =
      (⟨db, 0, 0, 0, [], [], []⟩ : ScrapeAcc).extraction_results ++ uniqs.filterMap (fun u =>
        match callOf provider (generate_extraction_prompt (promptOf prompts)) db u with
        | some out =>
          if storeFails u then none else some (u, (read_raw_data db u).2, edOf out)
        | none => none) from h4] at he
  simp only [List.nil_append] at he
  rw [List.mem_filterMap] at he
  obtain ⟨u, -, hmap⟩ := he
  cases hco : callOf provider (generate_extraction_prompt (promptOf prompts)) db u with
  | none => rw [hco] at hmap; cases hmap
  | some out =>
    rw [hco] at hmap
    by_cases hs : storeFails u = true
    · simp [hs] at hmap
    · have hs' : storeFails u = false := by revert hs; cases storeFails u <;> simp
      simp only [hs', if_false] at hmap
      obtain ⟨rfl⟩ := hmap
      simp [succCall, hco, hs']

theorem scrape_partial_failure_isolation_witness :
    (∃ u ∈ ([['a'], ['b']] : List PyStr),
      callOf (fun content _ => if content == ['c'] then
          some ⟨PyVal.json Json.null, 3, 4, 0⟩ else none)
        (generate_extraction_prompt (promptOf []))
        ([⟨1, ['a'], ['x'], ['c'], none⟩, ⟨2, ['b'], ['y'], ['d'], none⟩]) u = none ∨
      (fun _ : PyStr => false) u = true) ∧
    (scrape_urls (fun content _ => if content == ['c'] then
          some ⟨PyVal.json Json.null, 3, 4, 0⟩ else none)
        (fun _ => false)
        ([⟨1, ['a'], ['x'], ['c'], none⟩, ⟨2, ['b'], ['y'], ['d'], none⟩])
        ([['a'], ['b']]) []).extraction_results =
      [(['a'], ['x'], PyVal.json Json.null)] ∧
    (scrape_urls (fun content _ => if content == ['c'] then
          some ⟨PyVal.json Json.null, 3, 4, 0⟩ else none)
        (fun _ => false)
        ([⟨1, ['a'], ['x'], ['c'], none⟩, ⟨2, ['b'], ['y'], ['d'], none⟩])
        ([['a'], ['b']]) []).total_input_tokens = 3 := by
  have hfail : ∃ u ∈ ([['a'], ['b']] : List PyStr),
      callOf (fun content _ => if content == ['c'] then
          some ⟨PyVal.json Json.null, 3, 4, 0⟩ else none)
        (generate_extraction_prompt (promptOf []))
        ([⟨1, ['a'], ['x'], ['c'], none⟩, ⟨2, ['b'], ['y'], ['d'], none⟩]) u = none ∨
      (fun _ : PyStr => false) u = true :=
    ⟨['b'], by simp, Or.inl rfl⟩
  have h := scrape_partial_failure_isolation
    (fun content _ => if content == ['c'] then some ⟨PyVal.json Json.null, 3, 4, 0⟩ else none)
    (fun _ => false)
    ([⟨1, ['a'], ['x'], ['c'], none⟩, ⟨2, ['b'], ['y'], ['d'], none⟩])
    ([['a'], ['b']]) [] hfail
  exact ⟨hfail, h.1.trans rfl, h.2.2.1.trans rfl⟩

theorem calls_filter_sum {α : Type} [AddCommMonoid α]
    (provider : PyStr → PyStr → Option LlmOut) (M : PyStr) (storeFails : PyStr → Bool)
    (db : List Row) (f : LlmOut → α) :
    ∀ l : List PyStr,
      (((l.filterMap (fun u => (callOf provider M db u).map (fun out => (u, out)))).filter
          (fun c => !storeFails c.1)).map (fun c => f c.2)).sum =
        ((l.filterMap (succCall provider M storeFails db)).map f).sum := by
  intro l
  induction l with
  | nil => rfl
  | cons u us ih =>
    cases hco : callOf provider M db u with
    | none => simpa [List.filterMap_cons, hco, succCall] using ih
    | some out =>
      by_cases hs : storeFails u = true
      · simpa [List.filterMap_cons, List.filter_cons, hco, succCall, hs] using ih
      · have hs' : storeFails u = false := by revert hs; cases storeFails u <;> simp
        simpa [List.filterMap_cons, List.filter_cons, hco, succCall, hs'] using
          congrArg (fun x => f out + x) ih

/-- C5 (amended): the totals scrape_urls returns equal the sums of the
per-call values of exactly those LLM calls whose identifier then also
persisted successfully; calls followed by a store failure are
excluded. -/
theorem usage_totals_sum_successful_calls (provider : PyStr → PyStr → Option LlmOut)
    (storeFails : PyStr → Bool) (db : List Row) (uniqs prompts : List PyStr) :
    (scrape_urls provider storeFails db uniqs prompts).total_input_tokens =
        ((((scrape_urls provider storeFails db uniqs prompts).llmCalls.filter
          (fun c => !storeFails c.1)).map (fun c => c.2.input_tokens)).sum) ∧
    (scrape_urls provider storeFails db uniqs prompts).total_output_tokens =
        ((((scrape_urls provider storeFails db uniqs prompts).llmCalls.filter
          (fun c => !storeFails c.1)).map (fun c => c.2.output_tokens)).sum) ∧
    (scrape_urls provider storeFails db uniqs prompts).total_cost =
        ((((scrape_urls provider storeFails db uniqs prompts).llmCalls.filter
          (fun c => !storeFails c.1)).map (fun c => c.2.cost)).sum) := by
  obtain ⟨h1, h2, h3, -, h5, -, -⟩ := scrape_go_spec provider storeFails
    (generate_extraction_prompt (promptOf prompts)) db uniqs ⟨db, 0, 0, 0, [], [], []⟩
    (fun _ => rfl)
  refine ⟨?_, ?_, ?_⟩
  · rw [show (scrape_urls provider storeFails db uniqs prompts).llmCalls =
        (⟨db, 0, 0, 0, [], [], []⟩ : ScrapeAcc).llmCalls ++ uniqs.filterMap (fun u =>
          (callOf provider (generate_extraction_prompt (promptOf prompts)) db u).map
            (fun out => (u, out))) from h5]
    simp only [List.nil_append]
    rw [calls_filter_sum]
    simpa using h1
  · rw [show (scrape_urls provider storeFails db uniqs prompts).llmCalls =
        (⟨db, 0, 0, 0, [], [], []⟩ : ScrapeAcc).llmCalls ++ uniqs.filterMap (fun u =>
          (callOf provider (generate_extraction_prompt (promptOf prompts)) db u).map
            (fun out => (u, out))) from h5]
    simp only [List.nil_append]
    rw [calls_filter_sum]
    simpa using h2
  · rw [show (scrape_urls provider storeFails db uniqs prompts).llmCalls =
        (⟨db, 0, 0, 0, [], [], []⟩ : ScrapeAcc).llmCalls ++ uniqs.filterMap (fun u =>
          (callOf provider (generate_extraction_prompt (promptOf prompts)) db u).map
            (fun out => (u, out))) from h5]
    simp only [List.nil_append]
    rw [calls_filter_sum]
    simpa using h3

/-- C5 counterexample: one identifier, the provider returns 3 input
tokens, but persisting fails, so the returned total (0) differs from
the sum of the per-call values returned by the provider (3). -/
theorem usage_totals_miss_failed_persist :
    (scrape_urls (fun _ _ => some ⟨PyVal.json Json.null, 3, 4, 0⟩) (fun _ => true)
        ([⟨1, ['u'], ['w'], ['c'], none⟩]) ([['u']]) []).total_input_tokens = 0 ∧
    (((scrape_urls (fun _ _ => some ⟨PyVal.json Json.null, 3, 4, 0⟩) (fun _ => true)
        ([⟨1, ['u'], ['w'], ['c'], none⟩]) ([['u']]) []).llmCalls.map
          (fun c => c.2.input_tokens)).sum) = 3 ∧
    (scrape_urls (fun _ _ => some ⟨PyVal.json Json.null, 3, 4, 0⟩) (fun _ => true)
        ([⟨1, ['u'], ['w'], ['c'], none⟩]) ([['u']]) []).total_input_tokens ≠
      (((scrape_urls (fun _ _ => some ⟨PyVal.json Json.null, 3, 4, 0⟩) (fun _ => true)
        ([⟨1, ['u'], ['w'], ['c'], none⟩]) ([['u']]) []).llmCalls.map
          (fun c => c.2.input_tokens)).sum) :=
  ⟨rfl, rfl, by decide⟩

/-- C6 (amended): a completed LLM invocation's token counts and cost
are added to the running tally exactly when the subsequent persist
step for that identifier succeeds; when persisting fails, that
invocation contributes nothing to the tally. -/
theorem tally_updated_iff_persist_succeeds (provider : PyStr → PyStr → Option LlmOut)
    (storeFails : PyStr → Bool) (sysMsg : PyStr) (acc : ScrapeAcc) (uniq : PyStr) (out : LlmOut)
    (hcontent : ((read_raw_data acc.db uniq).1).isEmpty = false)
    (hcall : provider ((read_raw_data acc.db uniq).1) sysMsg = some out) :
    (scrape_step provider storeFails sysMsg acc uniq).llmCalls =
        acc.llmCalls ++ [(uniq, out)] ∧
    (storeFails uniq = false →
      (scrape_step provider storeFails sysMsg acc uniq).total_input_tokens =
          acc.total_input_tokens + out.input_tokens ∧
      (scrape_step provider storeFails sysMsg acc uniq).total_output_tokens =
          acc.total_output_tokens + out.output_tokens ∧
      (scrape_step provider storeFails sysMsg acc uniq).total_cost =
          acc.total_cost + out.cost) ∧
    (storeFails uniq = true →
      (scrape_step provider storeFails sysMsg acc uniq).total_input_tokens =
          acc.total_input_tokens ∧
      (scrape_step provider storeFails sysMsg acc uniq).total_output_tokens =
          acc.total_output_tokens ∧
      (scrape_step provider storeFails sysMsg acc uniq).total_cost = acc.total_cost) := by
  refine ⟨?_, ?_, ?_⟩
  · simp only [scrape_step, hcontent, hcall]
    cases hs : storeFails uniq <;> simp [hs]
  · intro hs
    simp [scrape_step, hcontent, hcall, hs]
  · intro hs
    simp [scrape_step, hcontent, hcall, hs]

theorem tally_updated_iff_persist_succeeds_witness :
    ((read_raw_data ([⟨1, ['u'], ['w'], ['c'], none⟩]) (['u'])).1).isEmpty = false ∧
    (scrape_step (fun _ _ => some ⟨PyVal.json Json.null, 2, 6, 0⟩) (fun _ => false) []
        ⟨[⟨1, ['u'], ['w'], ['c'], none⟩], 0, 0, 0, [], [], []⟩ (['u'])).llmCalls =
      [(['u'], ⟨PyVal.json Json.null, 2, 6, 0⟩)] ∧
    (scrape_step (fun _ _ => some ⟨PyVal.json Json.null, 2, 6, 0⟩) (fun _ => false) []
        ⟨[⟨1, ['u'], ['w'], ['c'], none⟩], 0, 0, 0, [], [], []⟩ (['u'])).total_input_tokens =
      2 := by
  have h := tally_updated_iff_persist_succeeds
    (fun _ _ => some ⟨PyVal.json Json.null, 2, 6, 0⟩) (fun _ => false) []
    ⟨[⟨1, ['u'], ['w'], ['c'], none⟩], 0, 0, 0, [], [], []⟩ (['u'])
    ⟨PyVal.json Json.null, 2, 6, 0⟩ rfl rfl
  exact ⟨rfl, h.1.trans rfl, (h.2.1 rfl).1.trans rfl⟩

/-- C6 counterexample: the LLM invocation for the identifier returns 5
input tokens, the persist step then fails, and contrary to the claim
the invocation's counts are not added: the tally stays 0. -/
theorem tally_misses_call_with_failed_persist :
    (((scrape_urls (fun _ _ => some ⟨PyVal.json Json.null, 5, 7, 0⟩) (fun _ => true)
        ([⟨1, ['v'], ['w'], ['c'], none⟩]) ([['v']]) []).llmCalls.map
          (fun c => c.2.input_tokens)) = [5]) ∧
    (scrape_urls (fun _ _ => some ⟨PyVal.json Json.null, 5, 7, 0⟩) (fun _ => true)
        ([⟨1, ['v'], ['w'], ['c'], none⟩]) ([['v']]) []).total_input_tokens = 0 ∧
    (scrape_urls (fun _ _ => some ⟨PyVal.json Json.null, 5, 7, 0⟩) (fun _ => true)
        ([⟨1, ['v'], ['w'], ['c'], none⟩]) ([['v']]) []).total_input_tokens ≠ 5 :=
  ⟨rfl, rfl, by decide⟩

/-- C10 counterexample: when the LLM response is the JSON string
literal "hello world" (with quotes), cleaning leaves it unchanged and
json.loads returns the Python str hello world, which scrape_urls
passes to save_formatted_data; inside save_formatted_data the string
fails to re-parse, so the raw_text branch the claim calls unreachable
fires. -/
theorem save_formatted_data_sees_string :
    (scrape_urls (fun _ _ => some ⟨PyVal.str (("\"hello world\"").data), 1, 1, 0⟩)
        (fun _ => false) ([⟨1, ['u'], ['w'], ['c'], none⟩]) ([['u']]) []).saveCalls =
      [PyVal.str (("hello world").data)] ∧
    save_formatted_value (PyVal.str (("hello world").data)) =
      Json.obj [((("raw_text").data), Json.str (("hello world").data))] :=
  ⟨rfl, rfl⟩

theorem pyValOfJson_cases (j : Json) :
    (∃ t, j = Json.str t ∧ pyValOfJson j = PyVal.str t) ∨ pyValOfJson j = PyVal.json j := by
  cases j with
  | str t => exact Or.inl ⟨t, rfl, rfl⟩
  | null => exact Or.inr rfl
  | bool b => exact Or.inr rfl
  | num lex => exact Or.inr rfl
  | arr xs => exact Or.inr rfl
  | obj ms => exact Or.inr rfl

/-- C10 (amended): every value scrape_urls passes to
save_formatted_data is either a non-string structured value — the
parsed JSON or the fallback object, which save_formatted_data passes
through unchanged — or a Python string, the latter exactly when the
cleaned response parses to a JSON string literal; only through that
case is save_formatted_data's string branch reachable from the
extraction orchestrator. -/
theorem save_formatted_arg_parsed_or_string_literal (provider : PyStr → PyStr → Option LlmOut)
    (storeFails : PyStr → Bool) (db : List Row) (uniqs prompts : List PyStr) :
    ∀ v ∈ (scrape_urls provider storeFails db uniqs prompts).saveCalls,
      (∃ j, v = PyVal.json j ∧ save_formatted_value v = j) ∨
      (∃ t, v = PyVal.str t ∧ ∃ u ∈ uniqs, ∃ out,
        callOf provider (generate_extraction_prompt (promptOf prompts)) db u = some out ∧
        ∃ s, out.resp = PyVal.str s ∧ parse_llm_response s = Json.str t) := by
  intro v hv
  obtain ⟨-, -, -, -, -, h6, -⟩ := scrape_go_spec provider storeFails
    (generate_extraction_prompt (promptOf prompts)) db uniqs ⟨db, 0, 0, 0, [], [], []⟩
    (fun _ => rfl)
  rw [show (scrape_urls provider storeFails db uniqs prompts).saveCalls =
      (⟨db, 0, 0, 0, [], [], []⟩ : ScrapeAcc).saveCalls ++ uniqs.filterMap (fun u =>
        (callOf provider (generate_extraction_prompt (promptOf prompts)) db u).map edOf)
      from h6] at hv
  simp only [List.nil_append] at hv
  rw [List.mem_filterMap] at hv
  obtain ⟨u, hu, hmap⟩ := hv
  cases hco : callOf provider (generate_extraction_prompt (promptOf prompts)) db u with
  | none => rw [hco] at hmap; cases hmap
  | some out =>
    rw [hco] at hmap
    simp only [Option.map_some'] at hmap
    cases hmap
    cases hre : out.resp with
    | json j =>
      exact Or.inl ⟨j, by simp [edOf, hre], by simp [edOf, hre, save_formatted_value]⟩
    | str s =>
      rcases pyValOfJson_cases (parse_llm_response s) with ⟨t, hjt, hpv⟩ | hpv
      · exact Or.inr ⟨t, by simp [edOf, hre, hpv], u, hu, out, hco, s, hre, hjt⟩
      · exact Or.inl ⟨parse_llm_response s, by simp [edOf, hre, hpv],
          by simp [edOf, hre, hpv, save_formatted_value]⟩

theorem save_formatted_arg_parsed_or_string_literal_witness :
    PyVal.str (("hi").data) ∈
      (scrape_urls (fun _ _ => some ⟨PyVal.str (("\"hi\"").data), 1, 1, 0⟩) (fun _ => false)
        ([⟨1, ['u'], ['w'], ['c'], none⟩]) ([['u']]) []).saveCalls ∧
    ((∃ j, PyVal.str (("hi").data) = PyVal.json j ∧
        save_formatted_value (PyVal.str (("hi").data)) = j) ∨
      (∃ t, PyVal.str (("hi").data) = PyVal.str t ∧ ∃ u ∈ ([['u']] : List PyStr), ∃ out,
        callOf (fun _ _ => some ⟨PyVal.str (("\"hi\"").data), 1, 1, 0⟩)
          (generate_extraction_prompt (promptOf []))
          ([⟨1, ['u'], ['w'], ['c'], none⟩]) u = some out ∧
        ∃ s, out.resp = PyVal.str s ∧ parse_llm_response s = Json.str t)) := by
  have hmem : PyVal.str (("hi").data) ∈
      (scrape_urls (fun _ _ => some ⟨PyVal.str (("\"hi\"").data), 1, 1, 0⟩) (fun _ => false)
        ([⟨1, ['u'], ['w'], ['c'], none⟩]) ([['u']]) []).saveCalls := by
    rw [show (scrape_urls (fun _ _ => some ⟨PyVal.str (("\"hi\"").data), 1, 1, 0⟩)
        (fun _ => false) ([⟨1, ['u'], ['w'], ['c'], none⟩]) ([['u']]) []).saveCalls =
        [PyVal.str (("hi").data)] from rfl]
    exact List.mem_singleton.mpr rfl
  exact ⟨hmem, save_formatted_arg_parsed_or_string_literal
    (fun _ _ => some ⟨PyVal.str (("\"hi\"").data), 1, 1, 0⟩) (fun _ => false)
    ([⟨1, ['u'], ['w'], ['c'], none⟩]) ([['u']]) [] (PyVal.str (("hi").data)) hmem⟩

theorem afterLS_nil (b : Bool) : afterLS b [] = b := rfl

theorem afterLS_cons (b : Bool) (c : Char) (xs : List Char) :
    afterLS b (c :: xs) = afterLS (c == '\n') xs := by
  cases xs with
  | nil => rfl
  | cons d ys =>
    unfold afterLS
    rw [List.getLast?_cons_cons]
    cases h : (d :: ys).getLast? with
    | none => exact absurd h (by simp)
    | some e => rfl

theorem sub1Go_trans (ys : List Char) : ∀ (xs : List Char) (n : Nat) (b : Bool),
    btick ∉ xs →
    sub1Go (xs.length + n) b (xs ++ ys) = xs ++ sub1Go n (afterLS b xs) ys := by
  intro xs
  induction xs with
  | nil => intro n b _; simp [afterLS]
  | cons c xs ih =>
    intro n b hb
    have hc : (btick == c) = false :=
      beq_eq_false_iff_ne.mpr (fun h => hb (by rw [h]; exact List.mem_cons_self _ _))
    have harith : (c :: xs).length + n = (xs.length + n) + 1 := by
      simp only [List.length_cons]
      omega
    rw [harith, List.cons_append]
    simp only [sub1Go, fenceJson, List.isPrefixOf, hc, Bool.false_and, Bool.and_false,
      if_false]
    rw [ih n (c == '\n') (fun h => hb (List.mem_cons_of_mem _ h)), afterLS_cons]
    rfl

theorem sub1_of_no_btick (cs : List Char) (h : btick ∉ cs) : sub1 cs = cs := by
  have h0 := sub1Go_trans [] cs 0 true h
  unfold sub1
  simpa [sub1Go] using h0

theorem sub2Go_trans (ys : List Char) : ∀ (xs : List Char) (n : Nat) (b : Bool),
    btick ∉ xs →
    sub2Go (xs.length + n) b (xs ++ ys) = xs ++ sub2Go n (afterLS b xs) ys := by
  intro xs
  induction xs with
  | nil => intro n b _; simp [afterLS]
  | cons c xs ih =>
    intro n b hb
    have hc : (btick == c) = false :=
      beq_eq_false_iff_ne.mpr (fun h => hb (by rw [h]; exact List.mem_cons_self _ _))
    have harith : (c :: xs).length + n = (xs.length + n) + 1 := by
      simp only [List.length_cons]
      omega
    rw [harith, List.cons_append]
    simp only [sub2Go, fence3, List.isPrefixOf, hc, Bool.false_and, Bool.and_false,
      if_false]
    rw [ih n (c == '\n') (fun h => hb (List.mem_cons_of_mem _ h)), afterLS_cons]
    rfl

theorem sub2_of_no_btick (cs : List Char) (h : btick ∉ cs) : sub2 cs = cs := by
  have h0 := sub2Go_trans [] cs 0 true h
  unfold sub2
  simpa [sub2Go] using h0

theorem sub3_of_no_btick (cs : List Char) (h : btick ∉ cs) : sub3 cs = cs := by
  have h1 : fence3.isSuffixOf cs = false := by
    rw [Bool.eq_false_iff]
    intro hsuf
    rw [List.isSuffixOf_iff_suffix] at hsuf
    exact h (hsuf.mem (by simp [fence3]))
  have h2 : fence3nl.isSuffixOf cs = false := by
    rw [Bool.eq_false_iff]
    intro hsuf
    rw [List.isSuffixOf_iff_suffix] at hsuf
    exact h (hsuf.mem (by simp [fence3nl]))
  unfold sub3
  rw [h1, h2]
  simp

theorem dropWhile_of_head (l : List Char) (c : Char) (h : l.head? = some c)
    (hc : isPySpace c = false) : l.dropWhile isPySpace = l := by
  cases l with
  | nil => cases h
  | cons a t =>
    simp only [List.head?_cons, Option.some.injEq] at h
    subst h
    simp [List.dropWhile_cons, hc]

theorem dropWhile_append_keep (p1 rest : List Char) (c : Char) (h : rest.head? = some c)
    (hc : isPySpace c = false) :
    (p1 ++ rest).dropWhile isPySpace = p1.dropWhile isPySpace ++ rest := by
  rw [List.dropWhile_append]
  by_cases h1 : (p1.dropWhile isPySpace).isEmpty
  · rw [if_pos h1, dropWhile_of_head rest c h hc, List.isEmpty_iff.mp h1, List.nil_append]
  · rw [if_neg h1]

theorem length_ge_two_of_ends (s : List Char) (hh : s.head? = some lbrace)
    (hl : s.getLast? = some rbrace) : 2 ≤ s.length := by
  cases s with
  | nil => cases hh
  | cons a t =>
    cases t with
    | nil =>
      simp only [List.head?_cons, Option.some.injEq] at hh
      simp only [List.getLast?_singleton, Option.some.injEq] at hl
      subst hh
      exact absurd hl (by decide)
    | cons b u => simp [List.length_cons]

theorem pyStrip_of_ends (l : List Char) (c1 c2 : Char) (hh : l.head? = some c1)
    (h1 : isPySpace c1 = false) (hl : l.getLast? = some c2) (h2 : isPySpace c2 = false) :
    pyStrip l = l := by
  unfold pyStrip
  rw [dropWhile_of_head l c1 hh h1]
  rw [dropWhile_of_head l.reverse c2 (by rw [List.head?_reverse]; exact hl) h2]
  exact List.reverse_reverse l

theorem pyStrip_append_nl (s : List Char) (hh : s.head? = some lbrace)
    (hl : s.getLast? = some rbrace) :
    pyStrip (s ++ ['\n']) = s := by
  unfold pyStrip
  have hh' : (s ++ ['\n']).head? = some lbrace := by
    rw [List.head?_append, hh]
    rfl
  rw [dropWhile_of_head _ lbrace hh' (by decide)]
  rw [List.reverse_append]
  simp only [List.reverse_cons, List.reverse_nil, List.nil_append, List.singleton_append]
  rw [List.dropWhile_cons]
  rw [if_pos (by decide : isPySpace ('\n') = true)]
  rw [dropWhile_of_head s.reverse rbrace (by rw [List.head?_reverse]; exact hl) (by decide)]
  exact List.reverse_reverse s

theorem pyStrip_concat (p1 s p2 : List Char) (hh : s.head? = some lbrace)
    (hl : s.getLast? = some rbrace) :
    pyStrip (p1 ++ s ++ p2) =
      p1.dropWhile isPySpace ++ s ++ (p2.reverse.dropWhile isPySpace).reverse := by
  unfold pyStrip
  have hh2 : (s ++ p2).head? = some lbrace := by
    rw [List.head?_append, hh]
    rfl
  have hl2 : (s.reverse ++ (p1.dropWhile isPySpace).reverse).head? = some rbrace := by
    rw [List.head?_append, List.head?_reverse, hl]
    rfl
  rw [List.append_assoc, dropWhile_append_keep p1 (s ++ p2) lbrace hh2 (by decide)]
  rw [List.reverse_append, List.reverse_append, List.append_assoc]
  rw [dropWhile_append_keep p2.reverse (s.reverse ++ (p1.dropWhile isPySpace).reverse)
    rbrace hl2 (by decide)]
  simp [List.reverse_append]

theorem findIdx_lbrace_concat (p1 s p2 : List Char) (h1 : lbrace ∉ p1)
    (hh : s.head? = some lbrace) :
    (p1 ++ s ++ p2).findIdx? (fun c => c == lbrace) = some p1.length := by
  obtain ⟨t, rfl⟩ : ∃ t, s = lbrace :: t := by
    cases s with
    | nil => cases hh
    | cons a t =>
      simp only [List.head?_cons, Option.some.injEq] at hh
      exact ⟨t, by rw [hh]⟩
  rw [List.append_assoc, List.findIdx?_append]
  have hn : p1.findIdx? (fun c => c == lbrace) = none :=
    List.findIdx?_eq_none_iff.mpr (fun x hx =>
      beq_eq_false_iff_ne.mpr (fun h => h1 (h ▸ hx)))
  rw [hn]
  simp [List.findIdx?_cons]

theorem lastIdx_rbrace_concat (p1 s p2 : List Char) (h2 : rbrace ∉ p2)
    (hh : s.head? = some lbrace) (hl : s.getLast? = some rbrace) :
    lastIdxOf rbrace (p1 ++ s ++ p2) = some (p1.length + s.length - 1) := by
  unfold lastIdxOf
  have hn : p2.reverse.findIdx? (fun d => d == rbrace) = none :=
    List.findIdx?_eq_none_iff.mpr (fun x hx =>
      beq_eq_false_iff_ne.mpr (fun h => h2 (h ▸ (List.mem_reverse.mp hx))))
  obtain ⟨t, ht⟩ : ∃ t, s.reverse = rbrace :: t := by
    cases hrev : s.reverse with
    | nil =>
      rw [← List.head?_reverse, hrev] at hl
      simp at hl
    | cons a t =>
      have h0 := List.head?_reverse s
      rw [hrev, hl] at h0
      simp only [List.head?_cons, Option.some.injEq] at h0
      exact ⟨t, by rw [h0]⟩
  have hs1 : 1 ≤ s.length := by
    cases s with
    | nil => cases hh
    | cons a u => simp
  rw [List.reverse_append, List.reverse_append, List.findIdx?_append, hn, ht]
  simp only [Option.none_or, List.cons_append, List.findIdx?_cons, beq_self_eq_true,
    cond_true, Option.map_some']
  rw [if_pos trivial]
  simp only [Option.map_some']
  show some ((p1 ++ s ++ p2).length - 1 - (0 + p2.reverse.length)) = some (p1.length + s.length - 1)
  congr 1
  simp only [List.length_append, List.length_reverse]
  omega

theorem sub1_fenced (s : List Char) (hb : btick ∉ s) (hh : s.head? = some lbrace) :
    sub1 (fenceJson ++ '\n' :: (s ++ '\n' :: fence3)) = s ++ '\n' :: fence3 := by
  obtain ⟨t, rfl⟩ : ∃ t, s = lbrace :: t := by
    cases s with
    | nil => cases hh
    | cons a t =>
      simp only [List.head?_cons, Option.some.injEq] at hh
      exact ⟨t, by rw [hh]⟩
  unfold sub1
  have hlen : (fenceJson ++ '\n' :: ((lbrace :: t) ++ '\n' :: fence3)).length =
      (t.length + 12) + 1 := by
    simp only [fenceJson, fence3, List.length_append, List.length_cons, List.length_nil]
    omega
  rw [hlen]
  have hstep : sub1Go ((t.length + 12) + 1) true
      (fenceJson ++ '\n' :: ((lbrace :: t) ++ '\n' :: fence3)) =
      sub1Go (t.length + 12) true ((lbrace :: t) ++ '\n' :: fence3) := rfl
  rw [hstep]
  rw [show t.length + 12 = (lbrace :: t).length + 11 from by simp]
  rw [sub1Go_trans ('\n' :: fence3) (lbrace :: t) 11 true hb]
  have hfin : ∀ b, sub1Go 11 b ('\n' :: fence3) = '\n' :: fence3 := by
    intro b
    cases b <;> rfl
  rw [hfin]

theorem sub2_fenced (s : List Char) (hb : btick ∉ s) :
    sub2 (s ++ '\n' :: fence3) = s ++ ['\n'] := by
  unfold sub2
  rw [show (s ++ '\n' :: fence3).length = s.length + 4 from by simp [fence3]]
  rw [sub2Go_trans ('\n' :: fence3) s 4 true hb]
  have hfin : ∀ b, sub2Go 4 b ('\n' :: fence3) = ['\n'] := by
    intro b
    cases b <;> rfl
  rw [hfin]

theorem clean_slice_self (s : List Char) (hh : s.head? = some lbrace)
    (hl : s.getLast? = some rbrace) :
    (match s.findIdx? (fun c => c == lbrace), lastIdxOf rbrace s with
     | some i, some j => if i < j then (s.take (j + 1)).drop i else s
     | _, _ => s) = s := by
  have hf : s.findIdx? (fun c => c == lbrace) = some 0 := by
    have h := findIdx_lbrace_concat [] s [] (by simp) hh
    simpa using h
  have hr : lastIdxOf rbrace s = some (s.length - 1) := by
    have h := lastIdx_rbrace_concat [] s [] (by simp) hh hl
    simpa using h
  have h2 : 2 ≤ s.length := length_ge_two_of_ends s hh hl
  rw [hf, hr]
  show (if 0 < s.length - 1 then (s.take (s.length - 1 + 1)).drop 0 else s) = s
  rw [if_pos (by omega)]
  rw [show s.length - 1 + 1 = s.length from by omega]
  rw [List.take_length, List.drop_zero]

theorem clean_slice_concat (p1 s p2 : List Char) (h1 : lbrace ∉ p1) (h2 : rbrace ∉ p2)
    (hh : s.head? = some lbrace) (hl : s.getLast? = some rbrace) :
    (match (p1 ++ s ++ p2).findIdx? (fun c => c == lbrace),
        lastIdxOf rbrace (p1 ++ s ++ p2) with
     | some i, some j => if i < j then ((p1 ++ s ++ p2).take (j + 1)).drop i
       else (p1 ++ s ++ p2)
     | _, _ => (p1 ++ s ++ p2)) = s := by
  have h2s : 2 ≤ s.length := length_ge_two_of_ends s hh hl
  rw [findIdx_lbrace_concat p1 s p2 h1 hh, lastIdx_rbrace_concat p1 s p2 h2 hh hl]
  show (if p1.length < p1.length + s.length - 1 then
      ((p1 ++ s ++ p2).take (p1.length + s.length - 1 + 1)).drop p1.length
    else (p1 ++ s ++ p2)) = s
  rw [if_pos (by omega)]
  rw [show p1.length + s.length - 1 + 1 = p1.length + s.length from by omega]
  rw [List.take_left' (show (p1 ++ s).length = p1.length + s.length from by simp)]
  exact List.drop_left p1 s

/-- Cleaning is the identity on a backtick-free string that starts
with a left brace and ends with a right brace. -/
theorem clean_eq_self (s : List Char) (hb : btick ∉ s) (hh : s.head? = some lbrace)
    (hl : s.getLast? = some rbrace) : clean_json_response s = s := by
  unfold clean_json_response
  dsimp only
  rw [sub1_of_no_btick s hb, sub2_of_no_btick s hb, sub3_of_no_btick s hb]
  rw [pyStrip_of_ends s lbrace rbrace hh (by decide) hl (by decide)]
  exact clean_slice_self s hh hl

/-- Cleaning strips a markdown code fence around a backtick-free JSON
object body. -/
theorem clean_fenced (s : List Char) (hb : btick ∉ s) (hh : s.head? = some lbrace)
    (hl : s.getLast? = some rbrace) :
    clean_json_response ((("```json\n").data) ++ s ++ (("\n```").data)) = s := by
  have hform : (("```json\n").data) ++ s ++ (("\n```").data) =
      fenceJson ++ '\n' :: (s ++ '\n' :: fence3) := by
    rw [show ("```json\n").data = fenceJson ++ ['\n'] from rfl,
        show ("\n```").data = '\n' :: fence3 from rfl]
    simp
  rw [hform]
  unfold clean_json_response
  dsimp only
  rw [sub1_fenced s hb hh]
  rw [sub2_fenced s hb]
  rw [sub3_of_no_btick (s ++ ['\n']) (by
    intro h
    rcases List.mem_append.mp h with h | h
    · exact hb h
    · simp at h
      exact absurd h (by decide))]
  rw [pyStrip_append_nl s hh hl]
  exact clean_slice_self s hh hl

/-- Cleaning recovers a brace-delimited JSON object body out of
backtick-free prose around it, provided the prose before carries no
left brace and the prose after no right brace. -/
theorem clean_prose (p1 s p2 : List Char) (hb : btick ∉ s) (hh : s.head? = some lbrace)
    (hl : s.getLast? = some rbrace) (hbp1 : btick ∉ p1) (h1 : lbrace ∉ p1)
    (hbp2 : btick ∉ p2) (h2 : rbrace ∉ p2) :
    clean_json_response (p1 ++ s ++ p2) = s := by
  have hball : btick ∉ p1 ++ s ++ p2 := by
    intro h
    rcases List.mem_append.mp h with h | h
    · rcases List.mem_append.mp h with h | h
      · exact hbp1 h
      · exact hb h
    · exact hbp2 h
  unfold clean_json_response
  dsimp only
  rw [sub1_of_no_btick _ hball, sub2_of_no_btick _ hball, sub3_of_no_btick _ hball]
  rw [pyStrip_concat p1 s p2 hh hl]
  exact clean_slice_concat (p1.dropWhile isPySpace) s
    ((p2.reverse.dropWhile isPySpace).reverse)
    (fun h => h1 ((List.dropWhile_sublist _).subset h))
    (fun h => h2 (List.mem_reverse.mp ((List.dropWhile_sublist _).subset
      (List.mem_reverse.mp h))))
    hh hl

/-- C1 counterexample: the input "null" is valid JSON, survives
cleaning unchanged, parses to JSON null, and is therefore returned as
null by response recovery — refuting "the result is never empty or
null" (and it is not the fallback object either). -/
theorem recovery_of_null_is_null :
    parse_llm_response (("null").data) = Json.null ∧
    parse_llm_response (("null").data) ≠ fallbackJson (("null").data) :=
  ⟨rfl, fun h => Json.noConfusion h⟩

/-- C1 (amended): response recovery returns the parsed JSON value for
pure JSON objects, for code-fenced JSON objects and for JSON objects
surrounded by brace-compatible prose, and wraps any text whose cleaned
form does not parse in the non-null, non-empty fallback object holding
the original text; but when the cleaned input parses to a non-object
JSON value such as null, that value — possibly null — is returned. -/
theorem response_recovery_robust :
    (∀ s v, json_loads s = some v → btick ∉ s → s.head? = some lbrace →
      s.getLast? = some rbrace → parse_llm_response s = v) ∧
    (∀ s v, json_loads s = some v → btick ∉ s → s.head? = some lbrace →
      s.getLast? = some rbrace →
      parse_llm_response ((("```json\n").data) ++ s ++ (("\n```").data)) = v) ∧
    (∀ s v p1 p2, json_loads s = some v → btick ∉ s → s.head? = some lbrace →
      s.getLast? = some rbrace → btick ∉ p1 → lbrace ∉ p1 → btick ∉ p2 → rbrace ∉ p2 →
      parse_llm_response (p1 ++ s ++ p2) = v) ∧
    (∀ s, json_loads (clean_json_response s) = none →
      parse_llm_response s = fallbackJson s ∧ fallbackJson s ≠ Json.null ∧
      fallbackJson s ≠ Json.obj []) := by
  refine ⟨?_, ?_, ?_, ?_⟩
  · intro s v hv hb hh hl
    unfold parse_llm_response
    rw [clean_eq_self s hb hh hl, hv]
  · intro s v hv hb hh hl
    unfold parse_llm_response
    rw [clean_fenced s hb hh hl, hv]
  · intro s v p1 p2 hv hb hh hl hbp1 h1 hbp2 h2
    unfold parse_llm_response
    rw [clean_prose p1 s p2 hb hh hl hbp1 h1 hbp2 h2, hv]
  · intro s hnone
    refine ⟨?_, fun h => Json.noConfusion h, fun h => by simp [fallbackJson] at h⟩
    unfold parse_llm_response
    rw [hnone]

theorem response_recovery_robust_witness :
    parse_llm_response (("\x7b\"a\":1\x7d").data) =
      Json.obj [(['a'], Json.num (['1']))] ∧
    parse_llm_response ((("```json\n").data) ++ (("\x7b\"a\":1\x7d").data) ++
      (("\n```").data)) = Json.obj [(['a'], Json.num (['1']))] ∧
    parse_llm_response ((("Sure: ").data) ++ (("\x7b\"a\":1\x7d").data) ++
      ((" end").data)) = Json.obj [(['a'], Json.num (['1']))] ∧
    parse_llm_response (("oops").data) = fallbackJson (("oops").data) :=
  ⟨response_recovery_robust.1 (("\x7b\"a\":1\x7d").data) _ rfl (by decide) rfl rfl,
   response_recovery_robust.2.1 (("\x7b\"a\":1\x7d").data) _ rfl (by decide) rfl rfl,
   response_recovery_robust.2.2.1 (("\x7b\"a\":1\x7d").data) _ (("Sure: ").data)
     ((" end").data) rfl (by decide) rfl rfl (by decide) (by decide) (by decide) (by decide),
   (response_recovery_robust.2.2.2 (("oops").data) rfl).1⟩

/-- C9: scrape_urls depends on its prompt list only through the first
element, and substitutes the default prompt when the list is empty. -/
theorem scrape_urls_uses_first_prompt (provider : PyStr → PyStr → Option LlmOut)
    (storeFails : PyStr → Bool) (db : List Row) (uniqs : List PyStr) :
    (∀ p ps ps', scrape_urls provider storeFails db uniqs (p :: ps) =
        scrape_urls provider storeFails db uniqs (p :: ps')) ∧
    scrape_urls provider storeFails db uniqs [] =
      scrape_urls provider storeFails db uniqs ([defaultPrompt]) :=
  ⟨fun _ _ _ => rfl, rfl⟩

theorem fetch_failure_retryable_witness :
    (read_raw_data (([] : List Row)) (['u'])).1 = [] ∧
    ((fun _ : PyStr => (none : Option PyStr)) (['h'])) = none ∧
    (fetch_and_store_markdowns (fun _ => ['u']) (fun _ => none) ⟨[], 0⟩ ([['h']])).1.db =
        save_raw_data [] (['u']) (['h']) [] ∧
    (fetch_and_store_markdowns (fun _ => ['u']) (fun _ => none) ⟨[], 0⟩ ([['h']])).1.fetchCount
        = 1 ∧
    (fetch_and_store_markdowns (fun _ => ['u']) (fun _ => none)
        (fetch_and_store_markdowns (fun _ => ['u']) (fun _ => none) ⟨[], 0⟩
          ([['h']])).1 ([['h']])).1.fetchCount = 2 := by
  have h := fetch_failure_retryable (fun _ => ['u']) (fun _ => none) ⟨[], 0⟩ (['h']) rfl rfl
  exact ⟨rfl, rfl, h.1, h.2.1, h.2.2.2.2⟩
